import Mathlib

/-!
# twitch-watcher: the poll loop of `main.go`

A shallow embedding of `main.go`: `getChannels`, `sendToDiscord` and the body of
the endless `for` loop of `main`, followed by the properties of one poll cycle.

Conventions of the embedding.

* A Go `string` is a Lean `String` (a sequence of Unicode code points): the
  embedding covers the strings that are valid UTF-8, which is what
  `encoding/json` hands to the program for identifiers, handles and titles.
* A Go `error` is represented by its message (`GoError`); `nil` is `none`.
* A Go `map[string]bool` is an association list (`GoMap`). Only the presence of
  a key is ever tested by the program.
* Calls that leave the process (the helix search call, `json.Marshal`,
  `http.NewRequest`, `http.DefaultClient.Do`) are arguments of the embedding.
* What the cycle does to the outside world is recorded as a list of `Event`s.
-/

namespace TwitchWatcher

/-! ## Data model -/

/-- The message of a Go `error` value. -/
abbrev GoError := String

/-- The `Channel` struct of `main.go`. -/
structure Channel where
  Id : String
  User : String
  Title : String
deriving DecidableEq

/-- The `SearchOptions` struct of `main.go`. -/
structure SearchOptions where
  Query : String
  TitleContains : String
  GameId : String
deriving DecidableEq

/-- The `DiscordMessage` struct of `main.go`. -/
structure DiscordMessage where
  Content : String
deriving DecidableEq

/-- The fields of `helix.Channel` that `getChannels` reads. -/
structure HelixChannel where
  ID : String
  BroadcasterLogin : String
  Title : String
  GameID : String
deriving DecidableEq

/-- The fields of `helix.SearchChannelsParams` that `getChannels` sets. -/
structure SearchChannelsParams where
  Channel : String
  First : Nat
  LiveOnly : Bool
deriving DecidableEq

/-- The parts of `helix.SearchChannelsResponse` that `getChannels` reads:
`resp.Error` and `resp.Data.Channels`. -/
structure SearchChannelsResponse where
  Error : String
  Channels : List HelixChannel
deriving DecidableEq

/-- The method `SearchChannels` of a `*helix.Client`: the response, or the
transport-level error. -/
abbrev Client := SearchChannelsParams → Except GoError SearchChannelsResponse

/-! ## The Go library functions the program calls -/

/-- The predicate `unicode.IsSpace`: the white space of `strings.TrimSpace`. -/
def isSpace (c : Char) : Bool :=
  let n := c.toNat
  n == 0x20 || (0x09 ≤ n && n ≤ 0x0D) || n == 0x85 || n == 0xA0 || n == 0x1680 ||
    (0x2000 ≤ n && n ≤ 0x200A) || n == 0x2028 || n == 0x2029 || n == 0x202F ||
    n == 0x205F || n == 0x3000

/-- The function `strings.TrimSpace`: leading and trailing white space removed. -/
def TrimSpace (s : String) : String :=
  ⟨((s.data.dropWhile isSpace).reverse.dropWhile isSpace).reverse⟩

/-- The function `strings.Join`. -/
def Join : List String → String → String
  | [], _ => ""
  | [a], _ => a
  | a :: b :: rest, sep => a ++ sep ++ Join (b :: rest) sep

/-- The function `strings.ToLower`: `unicode.ToLower`, here the argument `lower`,
applied to every code point. -/
def ToLower (lower : Char → Char) (s : String) : String :=
  ⟨s.data.map lower⟩

/-- Whether the second list starts the first one. -/
def startsWith : List Char → List Char → Bool
  | _, [] => true
  | [], _ :: _ => false
  | a :: s, b :: t => a == b && startsWith s t

/-- Whether the second list occurs in the first one as a contiguous block. -/
def containsChars : List Char → List Char → Bool
  | [], sub => startsWith [] sub
  | c :: s, sub => startsWith (c :: s) sub || containsChars s sub

/-- The function `strings.Contains`. -/
def Contains (s substr : String) : Bool :=
  containsChars s.data substr.data

/-- An operand of a `fmt` call: the program passes strings and errors only. -/
inductive Arg where
  | str (s : String)
  | err (e : GoError)
deriving DecidableEq

/-- What `fmt` does with a directive other than `%s` on a string operand and
`%w` on an error operand (and with operands that are left over). It receives
whether the call is `Errorf`, the format after the `%` and the operands that
remain, and returns the rest of the output. -/
abbrev FmtRest := Bool → List Char → List Arg → List Char

/-- The formatting loop of `fmt`: text up to a `%` is copied; `%s` writes a
string operand as it is; in `Errorf`, `%w` writes the message of an error
operand; everything else is left to `other`. -/
def doPrintf (other : FmtRest) (wrapErrs : Bool) : List Char → List Arg → List Char
  | [], [] => []
  | [], a :: args => other wrapErrs [] (a :: args)
  | c :: rest, args =>
    if c = '%' then
      match rest, args with
      | v :: rest', Arg.str s :: args' =>
        if v = 's' then s.data ++ doPrintf other wrapErrs rest' args'
        else other wrapErrs rest args
      | v :: rest', Arg.err e :: args' =>
        if v = 'w' ∧ wrapErrs = true then e.data ++ doPrintf other wrapErrs rest' args'
        else other wrapErrs rest args
      | _, _ => other wrapErrs rest args
    else c :: doPrintf other wrapErrs rest args

/-- The function `fmt.Sprintf`. -/
def Sprintf (other : FmtRest) (format : String) (args : List Arg) : String :=
  ⟨doPrintf other false format.data args⟩

/-- The function `fmt.Errorf`; the result is the message of the error. -/
def Errorf (other : FmtRest) (format : String) (args : List Arg) : GoError :=
  ⟨doPrintf other true format.data args⟩

/-! ## `map[string]bool` -/

/-- A Go `map[string]bool`. -/
abbrev GoMap := List (String × Bool)

/-- The test `_, exists := m[k]`. -/
def GoMap.has (m : GoMap) (k : String) : Bool :=
  m.any (fun e => e.1 == k)

/-- The assignment `m[k] = v`. -/
def GoMap.set (m : GoMap) (k : String) (v : Bool) : GoMap :=
  if m.has k then m.map (fun e => if e.1 = k then (k, v) else e) else m ++ [(k, v)]

/-- The call `delete(m, k)`. -/
def GoMap.delete (m : GoMap) (k : String) : GoMap :=
  m.filter (fun e => e.1 != k)

/-- The keys a `range` over the map visits. -/
def GoMap.keys (m : GoMap) : List String :=
  m.map (fun e => e.1)

/-! ## `getChannels` -/

/-- The body of the `for _, v := range resp.Data.Channels` loop of `getChannels`:
the two `continue` guards, then the `append`. -/
def getChannelsStep (lower : Char → Char) (options : SearchOptions) (titleContains : String)
    (response : List Channel) (v : HelixChannel) : List Channel :=
  if options.GameId ≠ "" ∧ options.GameId ≠ v.GameID then response
  else
    let title := ToLower lower v.Title
    if titleContains ≠ "" ∧ ¬ (Contains title titleContains = true) then response
    else response ++ [{ Id := v.ID, User := v.BroadcasterLogin, Title := v.Title }]

/-- The function `getChannels`: both results of the Go function, the slice and
the error. -/
def getChannels (other : FmtRest) (lower : Char → Char) (client : Client)
    (options : SearchOptions) : List Channel × Option GoError :=
  match client { LiveOnly := true, Channel := options.Query, First := 100 } with
  | .error _ => ([], some (Errorf other "failed to search for channels" []))
  | .ok resp =>
    if resp.Error ≠ "" then ([], some (Errorf other resp.Error []))
    else
      let titleContains := ToLower lower options.TitleContains
      (resp.Channels.foldl (getChannelsStep lower options titleContains) [], none)

/-! ## `sendToDiscord` -/

/-- The parts of an `http.Request` the program sets. -/
structure Request where
  Method : String
  URL : String
  Body : String
  Header : List (String × String)
deriving DecidableEq

/-- The parts of an `http.Response` the program reads. -/
structure Response where
  StatusCode : Nat
  Status : String
deriving DecidableEq

/-- The calls of `sendToDiscord` that leave the program: `json.Marshal`,
`http.NewRequest` (method, url, body) and `http.DefaultClient.Do`. -/
structure Http where
  Marshal : DiscordMessage → Except GoError String
  NewRequest : String → String → String → Except GoError Request
  Do : Request → Except GoError Response

/-- The method `Header.Set`. -/
def headerSet (h : List (String × String)) (key value : String) : List (String × String) :=
  h.filter (fun e => e.1 != key) ++ [(key, value)]

/-- The function `sendToDiscord`: `none` is the `nil` error. -/
def sendToDiscord (other : FmtRest) (http : Http) (message url : String) : Option GoError :=
  let msg : DiscordMessage := { Content := message }
  match http.Marshal msg with
  | .error err => some (Errorf other "failed to marshal object. %w" [.err err])
  | .ok payload =>
    match http.NewRequest "POST" url payload with
    | .error err => some (Errorf other "failed to create HTTP request. %w" [.err err])
    | .ok req =>
      let req := { req with Header := headerSet req.Header "Content-Type" "application/json" }
      match http.Do req with
      | .error err => some (Errorf other "failed to do request. %w" [.err err])
      | .ok resp =>
        if resp.StatusCode ≠ 204 then some (Errorf other resp.Status []) else none

/-! ## The loop of `main` -/

/-- What one poll cycle does to the world outside the loop. -/
inductive Event where
  /-- A call of `log.Println` with this text. -/
  | log (text : String)
  /-- A call `sendToDiscord(message, url)`. -/
  | send (message url : String)
  /-- The call `log.Printf("sleeping for %s", timeout)`. -/
  | logSleeping (timeout : Nat)
  /-- The call `time.Sleep(timeout)`. -/
  | sleep (timeout : Nat)
deriving DecidableEq

/-- The variables the `for _, c := range channels` loop of `main` updates. -/
structure LoopVars where
  messages : List String
  tmp : GoMap
  activeChannels : GoMap
deriving DecidableEq

/-- The body of the `for _, c := range channels` loop (lines 162 to 169). -/
def rangeStep (other : FmtRest) (st : LoopVars) (c : Channel) : LoopVars :=
  let tmp := st.tmp.set c.Id true
  if st.activeChannels.has c.Id then { st with tmp := tmp }
  else
    { messages := st.messages ++
        [TrimSpace (Sprintf other "https://twitch.tv/%s is streaming: %s"
          [.str c.User, .str c.Title])]
      tmp := tmp
      activeChannels := st.activeChannels.set c.Id true }

/-- The loop `for _, c := range channels` of `main`. -/
def rangeChannels (other : FmtRest) (channels : List Channel) (st : LoopVars) : LoopVars :=
  channels.foldl (rangeStep other) st

/-- The body of the loop `for id := range activeChannels` (lines 177 to 181). -/
def pruneStep (tmp : GoMap) (activeChannels : GoMap) (id : String) : GoMap :=
  if tmp.has id then activeChannels else activeChannels.delete id

/-- The loop `for id := range activeChannels` of `main`; the keys are visited
in the order of the association list. -/
def pruneLoop (tmp : GoMap) (activeChannels : GoMap) : GoMap :=
  activeChannels.keys.foldl (pruneStep tmp) activeChannels

/-- The state at the end of one pass through the body of the `for` loop of
`main`: the map `activeChannels`, the slice `messages` as it was joined, and
the events of the pass in order. -/
structure CycleResult where
  activeChannels : GoMap
  messages : List String
  events : List Event
deriving DecidableEq

/-- One pass through the body of the endless `for` loop of `main`
(lines 155 to 183). -/
def loopBody (other : FmtRest) (lower : Char → Char) (client : Client) (http : Http)
    (searchQuery gameId titleContains discordUrl : String) (timeout : Nat)
    (activeChannels : GoMap) : CycleResult :=
  let ev : List Event := [Event.log "searching for channels"]
  let (channels, err) := getChannels other lower client
    { Query := searchQuery, GameId := gameId, TitleContains := titleContains }
  let ev := match err with
    | some e => ev ++ [Event.log (Errorf other "failed to get active channels. %w" [.err e])]
    | none => ev
  let st := rangeChannels other channels
    { messages := [], tmp := [], activeChannels := activeChannels }
  let msg := Join st.messages "\n"
  let ev :=
    if msg ≠ "" then
      match sendToDiscord other http msg discordUrl with
      | some e => ev ++ [Event.send msg discordUrl,
          Event.log (Errorf other "failed to send message to discord. %w" [.err e])]
      | none => ev ++ [Event.send msg discordUrl]
    else ev
  let activeChannels := pruneLoop st.tmp st.activeChannels
  { activeChannels := activeChannels
    messages := st.messages
    events := ev ++ [Event.logSleeping timeout, Event.sleep timeout] }

/-- The first passes of the `for` loop of `main`, one for each element of the
list: what the search client and the HTTP stack answer in that pass. -/
def mainLoop (other : FmtRest) (lower : Char → Char)
    (searchQuery gameId titleContains discordUrl : String) (timeout : Nat) :
    List (Client × Http) → GoMap → List Event → GoMap × List Event
  | [], activeChannels, ev => (activeChannels, ev)
  | (client, http) :: rest, activeChannels, ev =>
    let r := loopBody other lower client http searchQuery gameId titleContains discordUrl
      timeout activeChannels
    mainLoop other lower searchQuery gameId titleContains discordUrl timeout rest
      r.activeChannels (ev ++ r.events)

/-- The messages of the calls of `sendToDiscord` among the events. -/
def sentMessages : List Event → List String
  | [] => []
  | Event.send message _ :: rest => message :: sentMessages rest
  | _ :: rest => sentMessages rest

/-! ## The terms of the specification -/

/-- The records of a list that are the first of the list with their `Id`. -/
def firstById : List Channel → List Channel
  | [] => []
  | c :: rest => c :: (firstById rest).filter (fun d => d.Id != c.Id)

/-- The delta of the specification: the channels of the snapshot whose `Id` is
not in the previous set, each identifier once. -/
def delta (previousSet : GoMap) (newSnapshot : List Channel) : List Channel :=
  firstById (newSnapshot.filter (fun c => !previousSet.has c.Id))

/-- The line of the specification for one channel. -/
def entry (c : Channel) : String :=
  TrimSpace ("https://twitch.tv/" ++ c.User ++ " is streaming: " ++ c.Title)

/-- The white space of the specification: the code points with the Unicode
property `White_Space`, one by one. -/
def whiteSpace : List Nat :=
  [0x09, 0x0A, 0x0B, 0x0C, 0x0D, 0x20, 0x85, 0xA0, 0x1680,
    0x2000, 0x2001, 0x2002, 0x2003, 0x2004, 0x2005, 0x2006, 0x2007, 0x2008, 0x2009, 0x200A,
    0x2028, 0x2029, 0x202F, 0x205F, 0x3000]

/-- What the specification means by `line` being `raw` with the leading and
trailing white space trimmed: `raw` is `line` between two runs of white space,
and `line` neither starts nor ends with white space. -/
def isTrimOf (line raw : String) : Prop :=
  ∃ pre post : List Char,
    raw.data = pre ++ line.data ++ post
    ∧ (∀ c ∈ pre, c.toNat ∈ whiteSpace)
    ∧ (∀ c ∈ post, c.toNat ∈ whiteSpace)
    ∧ (∀ c t, line.data = c :: t → c.toNat ∉ whiteSpace)
    ∧ (∀ c t, line.data = t ++ [c] → c.toNat ∉ whiteSpace)

/-- A stand-in for the part of `fmt` that is not embedded: it writes the
directive back with a mark. -/
def sampleFmt : FmtRest := fun _ directive _ => '%' :: '!' :: directive

/-- A search client whose call succeeds with these records and no error text. -/
def searchOk (channels : List HelixChannel) : Client :=
  fun _ => .ok { Error := "", Channels := channels }

/-- A search client whose call fails at transport level with this error. -/
def searchFails (text : GoError) : Client :=
  fun _ => .error text

/-- An HTTP stack whose webhook answers `204 No Content`. -/
def httpOk : Http :=
  { Marshal := fun m => .ok m.Content
    NewRequest := fun method url body => .ok { Method := method, URL := url, Body := body, Header := [] }
    Do := fun _ => .ok { StatusCode := 204, Status := "204 No Content" } }

/-- An HTTP stack whose request fails at transport level. -/
def httpDown : Http :=
  { Marshal := fun m => .ok m.Content
    NewRequest := fun method url body => .ok { Method := method, URL := url, Body := body, Header := [] }
    Do := fun _ => .error "connection refused" }

/-! ## Lemmas on the library functions -/

theorem doPrintf_literal (other : FmtRest) (w : Bool) (c : Char) (rest : List Char)
    (args : List Arg) (h : c ≠ '%') :
    doPrintf other w (c :: rest) args = c :: doPrintf other w rest args := by
  conv_lhs => unfold doPrintf
  simp [h]

theorem doPrintf_s (other : FmtRest) (w : Bool) (rest : List Char) (s : String)
    (args : List Arg) :
    doPrintf other w ('%' :: 's' :: rest) (Arg.str s :: args)
      = s.data ++ doPrintf other w rest args := by
  conv_lhs => unfold doPrintf
  simp

theorem doPrintf_nil (other : FmtRest) (w : Bool) : doPrintf other w [] [] = [] := by
  simp [doPrintf]

/-- The format of `main` applied to a user handle and a title. -/
theorem Sprintf_line (other : FmtRest) (user title : String) :
    Sprintf other "https://twitch.tv/%s is streaming: %s" [.str user, .str title]
      = "https://twitch.tv/" ++ user ++ " is streaming: " ++ title := by
  apply String.ext
  show doPrintf other false "https://twitch.tv/%s is streaming: %s".data _ = _
  simp only [String.data_append]
  simp [doPrintf_literal, doPrintf_s, doPrintf_nil]

/-- A format without `%` and without operands is written as it is. -/
theorem doPrintf_plain (other : FmtRest) (w : Bool) (l : List Char) (h : '%' ∉ l) :
    doPrintf other w l [] = l := by
  induction l with
  | nil => simp [doPrintf]
  | cons c rest ih =>
    simp only [List.mem_cons, not_or] at h
    rw [doPrintf_literal other w c rest [] (fun e => h.1 e.symm), ih h.2]

theorem dropWhile_append_last_ne_nil (p : Char → Bool) (l : List Char) (a : Char)
    (ha : p a = false) : (l ++ [a]).dropWhile p ≠ [] := by
  induction l with
  | nil => simp [List.dropWhile, ha]
  | cons b l ih =>
    simp only [List.cons_append, List.dropWhile_cons]
    split
    · exact ih
    · simp

/-- Trimming a string whose first code point is not white space leaves a
string that is not empty. -/
theorem TrimSpace_ne_empty (a : Char) (l : List Char) (ha : isSpace a = false) :
    TrimSpace ⟨a :: l⟩ ≠ "" := by
  intro h
  have h1 : ((List.dropWhile isSpace (a :: l)).reverse.dropWhile isSpace).reverse = [] := by
    have := congrArg String.data h
    simpa [TrimSpace] using this
  rw [List.dropWhile_cons, ha] at h1
  simp only [Bool.false_eq_true, if_false, List.reverse_cons, List.reverse_eq_nil_iff] at h1
  exact dropWhile_append_last_ne_nil isSpace l.reverse a ha h1

theorem entry_ne_empty (c : Channel) : entry c ≠ "" := by
  have h : ("https://twitch.tv/" ++ c.User ++ " is streaming: " ++ c.Title)
      = ⟨'h' :: ("ttps://twitch.tv/".data ++ c.User.data ++ " is streaming: ".data
          ++ c.Title.data)⟩ := by
    apply String.ext
    simp [String.data_append]
  unfold entry
  rw [h]
  exact TrimSpace_ne_empty _ _ (by decide)

theorem Join_eq_empty (l : List String) (sep : String) (h : ∀ s ∈ l, s ≠ "") :
    Join l sep = "" ↔ l = [] := by
  constructor
  · intro hj
    match l, h, hj with
    | [], _, _ => rfl
    | [a], h, hj =>
      exact absurd hj (by simpa [Join] using h a (by simp))
    | a :: b :: rest, h, hj =>
      exfalso
      have ha : a ≠ "" := h a (by simp)
      have hd := congrArg String.data hj
      simp only [Join, String.data_append] at hd
      have : a.data = [] := by
        have hd2 : a.data ++ (sep.data ++ (Join (b :: rest) sep).data) = [] := by
          simpa using hd
        exact (List.append_eq_nil.mp hd2).1
      exact ha (String.ext this)
  · rintro rfl
    rfl

/-! ## Lemmas on maps -/

theorem has_iff (m : GoMap) (k : String) : m.has k = true ↔ ∃ e ∈ m, e.1 = k := by
  simp [GoMap.has, List.any_eq_true]

theorem has_nil (k : String) : GoMap.has [] k = false := rfl

theorem has_set (m : GoMap) (k : String) (v : Bool) (id : String) :
    (m.set k v).has id = true ↔ id = k ∨ m.has id = true := by
  unfold GoMap.set
  split
  · rename_i hk
    rw [has_iff, has_iff]
    rw [has_iff] at hk
    constructor
    · rintro ⟨e, he, rfl⟩
      obtain ⟨e0, he0, rfl⟩ := List.mem_map.mp he
      by_cases h : e0.1 = k
      · left; simp [h]
      · right; exact ⟨e0, he0, by simp [h]⟩
    · rintro (rfl | ⟨e, he, rfl⟩)
      · obtain ⟨e, he, rfl⟩ := hk
        exact ⟨_, List.mem_map.mpr ⟨e, he, rfl⟩, by simp⟩
      · by_cases h : e.1 = k
        · exact ⟨_, List.mem_map.mpr ⟨e, he, rfl⟩, by simp [h]⟩
        · exact ⟨_, List.mem_map.mpr ⟨e, he, rfl⟩, by simp [h]⟩
  · rw [has_iff, has_iff]
    constructor
    · rintro ⟨e, he, rfl⟩
      rcases List.mem_append.mp he with h | h
      · right; exact ⟨e, h, rfl⟩
      · left; simp at h; simp [h]
    · rintro (rfl | ⟨e, he, rfl⟩)
      · exact ⟨(id, v), by simp, rfl⟩
      · exact ⟨e, List.mem_append.mpr (Or.inl he), rfl⟩

theorem has_delete (m : GoMap) (k id : String) :
    (m.delete k).has id = true ↔ id ≠ k ∧ m.has id = true := by
  rw [has_iff, has_iff]
  unfold GoMap.delete
  constructor
  · rintro ⟨e, he, rfl⟩
    rw [List.mem_filter] at he
    exact ⟨by simpa using he.2, e, he.1, rfl⟩
  · rintro ⟨hne, e, he, rfl⟩
    exact ⟨e, List.mem_filter.mpr ⟨he, by simpa using hne⟩, rfl⟩

theorem has_keys (m : GoMap) (id : String) : m.has id = true ↔ id ∈ m.keys := by
  rw [has_iff]
  simp [GoMap.keys]

/-! ## Lemmas on the two loops of `main` -/

/-- The line `main` appends for a channel. -/
theorem line_eq_entry (other : FmtRest) (c : Channel) :
    TrimSpace (Sprintf other "https://twitch.tv/%s is streaming: %s"
      [.str c.User, .str c.Title]) = entry c := by
  rw [Sprintf_line]
  rfl

theorem firstById_filter (k : String) (l : List Channel) :
    firstById (l.filter (fun d => d.Id != k)) = (firstById l).filter (fun d => d.Id != k) := by
  induction l with
  | nil => rfl
  | cons c rest ih =>
    by_cases h : c.Id = k
    · subst h
      simp only [List.filter_cons, bne_self_eq_false, Bool.false_eq_true, if_false, firstById]
      rw [ih, List.filter_filter]
      simp
    · have hb : (c.Id != k) = true := by simpa using h
      simp only [List.filter_cons, hb, if_true, firstById]
      rw [ih, List.filter_filter, List.filter_filter]
      congr 2
      funext d
      exact Bool.and_comm _ _

theorem rangeChannels_messages (other : FmtRest) (S : List Channel) (st : LoopVars) :
    (rangeChannels other S st).messages
      = st.messages ++ (delta st.activeChannels S).map entry := by
  induction S generalizing st with
  | nil => simp [rangeChannels, delta, firstById]
  | cons c rest ih =>
    have hstep : rangeChannels other (c :: rest) st
        = rangeChannels other rest (rangeStep other st c) := rfl
    rw [hstep, ih]
    unfold rangeStep
    by_cases h : st.activeChannels.has c.Id = true
    · simp [h, delta]
    · have hf : st.activeChannels.has c.Id = false := by simpa using h
      have hd : delta (st.activeChannels.set c.Id true) rest
          = (delta st.activeChannels rest).filter (fun d => d.Id != c.Id) := by
        unfold delta
        rw [← firstById_filter, List.filter_filter]
        congr 2
        funext d
        by_cases hdc : d.Id = c.Id
        · have : (st.activeChannels.set c.Id true).has d.Id = true :=
            (has_set _ _ _ _).mpr (Or.inl hdc)
          rw [hdc] at this
          simp [this, hdc]
        · have hb : (d.Id != c.Id) = true := by simpa using hdc
          have : (st.activeChannels.set c.Id true).has d.Id = st.activeChannels.has d.Id := by
            rw [Bool.eq_iff_iff, has_set]
            simp [hdc]
          simp [this, hb]
      simp only [h, if_false, Bool.false_eq_true]
      rw [hd, line_eq_entry]
      simp [delta, hf, firstById]

theorem rangeChannels_tmp (other : FmtRest) (S : List Channel) (st : LoopVars) (id : String) :
    (rangeChannels other S st).tmp.has id = true
      ↔ st.tmp.has id = true ∨ id ∈ S.map Channel.Id := by
  induction S generalizing st with
  | nil => simp [rangeChannels]
  | cons c rest ih =>
    have hstep : rangeChannels other (c :: rest) st
        = rangeChannels other rest (rangeStep other st c) := rfl
    rw [hstep, ih]
    have ht : (rangeStep other st c).tmp = st.tmp.set c.Id true := by
      unfold rangeStep
      split <;> rfl
    rw [ht, has_set]
    simp only [List.map_cons, List.mem_cons]
    tauto

theorem rangeChannels_active (other : FmtRest) (S : List Channel) (st : LoopVars)
    (id : String) :
    (rangeChannels other S st).activeChannels.has id = true
      ↔ st.activeChannels.has id = true ∨ id ∈ S.map Channel.Id := by
  induction S generalizing st with
  | nil => simp [rangeChannels]
  | cons c rest ih =>
    have hstep : rangeChannels other (c :: rest) st
        = rangeChannels other rest (rangeStep other st c) := rfl
    rw [hstep, ih]
    have ht : (rangeStep other st c).activeChannels.has id = true
        ↔ id = c.Id ∨ st.activeChannels.has id = true := by
      unfold rangeStep
      split
      · rename_i h
        constructor
        · intro h1; exact Or.inr h1
        · rintro (rfl | h1)
          · exact h
          · exact h1
      · exact has_set _ _ _ _
    rw [ht]
    simp only [List.map_cons, List.mem_cons]
    tauto

theorem pruneFold_has (tmp : GoMap) (ks : List String) (m : GoMap) (id : String) :
    (ks.foldl (pruneStep tmp) m).has id = true
      ↔ m.has id = true ∧ (id ∈ ks → tmp.has id = true) := by
  induction ks generalizing m with
  | nil => simp
  | cons k rest ih =>
    rw [List.foldl_cons, ih]
    unfold pruneStep
    by_cases h : tmp.has k = true
    · simp only [h, if_true, List.mem_cons]
      constructor
      · rintro ⟨h1, h2⟩
        refine ⟨h1, ?_⟩
        rintro (rfl | h3)
        · exact h
        · exact h2 h3
      · rintro ⟨h1, h2⟩
        exact ⟨h1, fun h3 => h2 (Or.inr h3)⟩
    · have hf : tmp.has k = false := by simpa using h
      simp only [hf, Bool.false_eq_true, if_false, List.mem_cons, has_delete]
      constructor
      · rintro ⟨⟨h1, h2⟩, h3⟩
        refine ⟨h2, ?_⟩
        rintro (rfl | h4)
        · exact absurd rfl h1
        · exact h3 h4
      · rintro ⟨h1, h2⟩
        refine ⟨⟨?_, h1⟩, fun h3 => h2 (Or.inr h3)⟩
        intro hid
        exact h (hid ▸ h2 (Or.inl hid))

/-- Go visits the keys of a map in an order it does not fix: whatever the order
`ks` of the keys, the pruning leaves the same keys. -/
theorem pruneFold_any_order (tmp m : GoMap) (ks : List String) (hks : ks.Perm m.keys)
    (id : String) :
    (ks.foldl (pruneStep tmp) m).has id = true ↔ m.has id = true ∧ tmp.has id = true := by
  rw [pruneFold_has]
  constructor
  · rintro ⟨h1, h2⟩
    exact ⟨h1, h2 (hks.mem_iff.mpr ((has_keys m id).mp h1))⟩
  · rintro ⟨h1, h2⟩
    exact ⟨h1, fun _ => h2⟩

/-- The map after the pruning loop holds the keys of the map before it that
are keys of `tmp`. -/
theorem pruneLoop_has (tmp m : GoMap) (id : String) :
    (pruneLoop tmp m).has id = true ↔ m.has id = true ∧ tmp.has id = true := by
  unfold pruneLoop
  rw [pruneFold_has]
  constructor
  · rintro ⟨h1, h2⟩
    exact ⟨h1, h2 ((has_keys m id).mp h1)⟩
  · rintro ⟨h1, h2⟩
    exact ⟨h1, fun _ => h2⟩

/-! ## Lemmas on one pass of the loop of `main` -/

theorem sentMessages_append (a b : List Event) :
    sentMessages (a ++ b) = sentMessages a ++ sentMessages b := by
  induction a with
  | nil => rfl
  | cons e rest ih =>
    cases e <;> simp [sentMessages, ih]

/-- The slice `messages` of a pass: the lines of the delta. -/
theorem loopBody_messages (other : FmtRest) (lower : Char → Char) (client : Client)
    (http : Http) (searchQuery gameId titleContains discordUrl : String) (timeout : Nat)
    (P : GoMap) :
    (loopBody other lower client http searchQuery gameId titleContains discordUrl timeout
        P).messages
      = (delta P (getChannels other lower client
          { Query := searchQuery, GameId := gameId, TitleContains := titleContains }).1).map
          entry := by
  simp [loopBody, rangeChannels_messages]

/-- The map `activeChannels` after a pass: the identifiers `getChannels` returned. -/
theorem loopBody_has (other : FmtRest) (lower : Char → Char) (client : Client)
    (http : Http) (searchQuery gameId titleContains discordUrl : String) (timeout : Nat)
    (P : GoMap) (id : String) :
    (loopBody other lower client http searchQuery gameId titleContains discordUrl timeout
        P).activeChannels.has id = true
      ↔ id ∈ (getChannels other lower client
          { Query := searchQuery, GameId := gameId, TitleContains := titleContains }).1.map
          Channel.Id := by
  simp only [loopBody]
  rw [pruneLoop_has, rangeChannels_tmp, rangeChannels_active]
  simp only [has_nil, Bool.false_eq_true, false_or]
  exact ⟨fun h => h.2, fun h => ⟨Or.inr h, h⟩⟩

/-- The calls of `sendToDiscord` in a pass: none when the joined message is
empty, and one with the joined message otherwise. -/
theorem loopBody_sent (other : FmtRest) (lower : Char → Char) (client : Client)
    (http : Http) (searchQuery gameId titleContains discordUrl : String) (timeout : Nat)
    (P : GoMap) :
    sentMessages (loopBody other lower client http searchQuery gameId titleContains
        discordUrl timeout P).events
      = if Join (loopBody other lower client http searchQuery gameId titleContains
            discordUrl timeout P).messages "\n" = "" then []
        else [Join (loopBody other lower client http searchQuery gameId titleContains
            discordUrl timeout P).messages "\n"] := by
  simp only [loopBody]
  rcases getChannels other lower client
      { Query := searchQuery, GameId := gameId, TitleContains := titleContains }
    with ⟨channels, err⟩
  by_cases hmsg : Join (rangeChannels other channels
      { messages := [], tmp := [], activeChannels := P }).messages "\n" = ""
  · cases err <;> simp [hmsg, sentMessages, sentMessages_append]
  · cases err <;>
      cases sendToDiscord other http
        (Join (rangeChannels other channels
          { messages := [], tmp := [], activeChannels := P }).messages "\n") discordUrl <;>
      simp [hmsg, sentMessages, sentMessages_append]

/-- Every pass ends with the call of `time.Sleep`. -/
theorem loopBody_last (other : FmtRest) (lower : Char → Char) (client : Client)
    (http : Http) (searchQuery gameId titleContains discordUrl : String) (timeout : Nat)
    (P : GoMap) :
    (loopBody other lower client http searchQuery gameId titleContains discordUrl timeout
        P).events.getLast? = some (Event.sleep timeout) := by
  simp [loopBody]

/-! ## Lemmas on the delta and on the filter of `getChannels` -/

theorem firstById_eq_nil (l : List Channel) : firstById l = [] ↔ l = [] := by
  cases l <;> simp [firstById]

theorem delta_eq_nil (P : GoMap) (S : List Channel) :
    delta P S = [] ↔ ∀ c ∈ S, P.has c.Id = true := by
  unfold delta
  rw [firstById_eq_nil, List.filter_eq_nil_iff]
  simp

theorem firstById_sublist (l : List Channel) : (firstById l).Sublist l := by
  induction l with
  | nil => exact List.Sublist.slnil
  | cons c rest ih =>
    exact List.Sublist.cons₂ c ((List.filter_sublist _).trans ih)

theorem firstById_of_nodup (l : List Channel) (h : (l.map Channel.Id).Nodup) :
    firstById l = l := by
  induction l with
  | nil => rfl
  | cons c rest ih =>
    rw [List.map_cons, List.nodup_cons] at h
    simp only [firstById]
    rw [ih h.2, List.filter_eq_self.mpr]
    intro d hd
    have : d.Id ≠ c.Id := fun e => h.1 (e ▸ List.mem_map_of_mem Channel.Id hd)
    simpa using this

theorem firstById_filter_id (l : List Channel) (id : String) :
    (firstById l).filter (fun c => c.Id == id)
      = (l.find? (fun c => c.Id == id)).toList := by
  induction l with
  | nil => rfl
  | cons c rest ih =>
    simp only [firstById]
    by_cases h : c.Id = id
    · have hb : (c.Id == id) = true := by simpa using h
      rw [List.filter_cons, if_pos hb, List.find?_cons, hb, List.filter_filter]
      simp only [Option.toList]
      congr 1
      rw [List.filter_eq_nil_iff]
      intro d _
      simp [h]
    · have hb : (c.Id == id) = false := by simpa using h
      rw [List.filter_cons, hb, List.find?_cons, hb, List.filter_filter, ← ih]
      simp only [Bool.false_eq_true, if_false]
      congr 1
      funext d
      by_cases hd : d.Id = id
      · have : d.Id ≠ c.Id := fun e => h (e ▸ hd)
        simp [hd, this]
        exact fun e => h (e ▸ rfl)
      · simp [hd]

theorem find_filter_absent (P : GoMap) (S : List Channel) (id : String)
    (h : P.has id = false) :
    (S.filter (fun c => !P.has c.Id)).find? (fun c => c.Id == id)
      = S.find? (fun c => c.Id == id) := by
  induction S with
  | nil => rfl
  | cons c rest ih =>
    by_cases hc : c.Id = id
    · subst hc
      simp [List.filter_cons, h, List.find?_cons]
    · have hb : (c.Id == id) = false := by simpa using hc
      by_cases h1 : P.has c.Id = true
      · simp [List.filter_cons, h1, List.find?_cons, hb, ih]
      · have h2 : P.has c.Id = false := by simpa using h1
        simp [List.filter_cons, h2, List.find?_cons, hb, ih]

theorem find_filter_present (P : GoMap) (S : List Channel) (id : String)
    (h : P.has id = true) :
    (S.filter (fun c => !P.has c.Id)).find? (fun c => c.Id == id) = none := by
  rw [List.find?_eq_none]
  intro c hc
  rw [List.mem_filter] at hc
  intro he
  have : c.Id = id := by simpa using he
  rw [this, h] at hc
  simp at hc

theorem Errorf_plain (other : FmtRest) (format : String) (h : '%' ∉ format.data) :
    Errorf other format [] = format := by
  apply String.ext
  exact doPrintf_plain other true format.data h

theorem map_eq_nil_iff_has (m : GoMap) : m = [] ↔ ∀ id, m.has id = false := by
  constructor
  · rintro rfl id
    rfl
  · intro h
    cases m with
    | nil => rfl
    | cons e rest =>
      have := h e.1
      simp [GoMap.has] at this

theorem Join_entries_eq_empty (D : List Channel) :
    Join (D.map entry) "\n" = "" ↔ D = [] := by
  rw [Join_eq_empty _ _ (by
    intro s hs
    obtain ⟨c, _, rfl⟩ := List.mem_map.mp hs
    exact entry_ne_empty c)]
  exact List.map_eq_nil_iff

/-- The calls of `sendToDiscord` in a pass, in the terms of the delta. -/
theorem loopBody_sent_delta (other : FmtRest) (lower : Char → Char) (client : Client)
    (http : Http) (q g t url : String) (timeout : Nat) (P : GoMap) (S : List Channel)
    (err : Option GoError)
    (hfetch : getChannels other lower client { Query := q, GameId := g, TitleContains := t }
      = (S, err)) :
    sentMessages (loopBody other lower client http q g t url timeout P).events
      = if delta P S = [] then [] else [Join ((delta P S).map entry) "\n"] := by
  rw [loopBody_sent, loopBody_messages, hfetch]
  by_cases hD : delta P S = []
  · rw [if_pos hD, if_pos ((Join_entries_eq_empty _).mpr hD)]
  · rw [if_neg hD, if_neg (fun h => hD ((Join_entries_eq_empty _).mp h))]

/-! ## Lemmas on trimming and joining, in the terms of the specification -/

/-- The predicate `isSpace` holds of the white space of the specification and
of nothing else. -/
theorem isSpace_iff (c : Char) : isSpace c = true ↔ c.toNat ∈ whiteSpace := by
  simp only [isSpace, whiteSpace, List.mem_cons, List.mem_singleton, Bool.or_eq_true,
    Bool.and_eq_true, beq_iff_eq, decide_eq_true_eq, List.mem_nil_iff, or_false]
  omega

theorem dropWhile_head (p : Char → Bool) (l : List Char) (c : Char) (t : List Char)
    (h : l.dropWhile p = c :: t) : p c = false := by
  induction l with
  | nil => simp at h
  | cons a rest ih =>
    rw [List.dropWhile_cons] at h
    by_cases ha : p a = true
    · rw [if_pos ha] at h
      exact ih h
    · rw [if_neg ha] at h
      have hac : a = c := (List.cons.inj h).1
      rw [← hac]
      simpa using ha

/-- The function `TrimSpace` trims, in the sense of the specification. -/
theorem TrimSpace_isTrimOf (s : String) : isTrimOf (TrimSpace s) s := by
  have hsplit1 : s.data = s.data.takeWhile isSpace ++ s.data.dropWhile isSpace :=
    (List.takeWhile_append_dropWhile isSpace s.data).symm
  have hsplit2 : s.data.dropWhile isSpace
      = ((s.data.dropWhile isSpace).reverse.dropWhile isSpace).reverse
        ++ ((s.data.dropWhile isSpace).reverse.takeWhile isSpace).reverse := by
    rw [← List.reverse_append, List.takeWhile_append_dropWhile, List.reverse_reverse]
  refine ⟨s.data.takeWhile isSpace,
    ((s.data.dropWhile isSpace).reverse.takeWhile isSpace).reverse, ?_, ?_, ?_, ?_, ?_⟩
  · show s.data = s.data.takeWhile isSpace
        ++ ((s.data.dropWhile isSpace).reverse.dropWhile isSpace).reverse
        ++ ((s.data.dropWhile isSpace).reverse.takeWhile isSpace).reverse
    rw [List.append_assoc, ← hsplit2, ← hsplit1]
  · intro c hc
    exact (isSpace_iff c).mp (List.mem_takeWhile_imp hc)
  · intro c hc
    exact (isSpace_iff c).mp (List.mem_takeWhile_imp (List.mem_reverse.mp hc))
  · intro c t ht hw
    have ht2 : ((s.data.dropWhile isSpace).reverse.dropWhile isSpace).reverse = c :: t := ht
    rw [ht2] at hsplit2
    have := dropWhile_head isSpace s.data c _ hsplit2
    rw [(isSpace_iff c).mpr hw] at this
    exact absurd this (by decide)
  · intro c t ht hw
    have ht2 : ((s.data.dropWhile isSpace).reverse.dropWhile isSpace).reverse = t ++ [c] := ht
    have ht3 : (s.data.dropWhile isSpace).reverse.dropWhile isSpace = c :: t.reverse := by
      have := congrArg List.reverse ht2
      simpa using this
    have := dropWhile_head isSpace _ c _ ht3
    rw [(isSpace_iff c).mpr hw] at this
    exact absurd this (by decide)

theorem intercalate_go (sep acc : String) (l : List String) :
    String.intercalate.go acc sep l = l.foldl (fun r a => r ++ sep ++ a) acc := by
  induction l generalizing acc with
  | nil => rfl
  | cons a rest ih =>
    simp only [String.intercalate.go, List.foldl_cons]
    exact ih _

theorem foldl_sep_append (sep x acc : String) (l : List String) :
    l.foldl (fun r a => r ++ sep ++ a) (x ++ acc) = x ++ l.foldl (fun r a => r ++ sep ++ a) acc := by
  induction l generalizing acc with
  | nil => rfl
  | cons a rest ih =>
    simp only [List.foldl_cons]
    rw [String.append_assoc, String.append_assoc, ← String.append_assoc acc, ih]

/-- The function `Join` puts the separator between each two neighbours, as
`String.intercalate` of the Lean library does. -/
theorem Join_eq_intercalate (l : List String) (sep : String) :
    Join l sep = sep.intercalate l := by
  cases l with
  | nil => rfl
  | cons a rest =>
    show Join (a :: rest) sep = String.intercalate.go a sep rest
    rw [intercalate_go]
    induction rest generalizing a with
    | nil => rfl
    | cons b rest ih =>
      simp only [Join, List.foldl_cons]
      rw [ih b, String.append_assoc, foldl_sep_append, String.append_assoc]

/-- The lines of a pass are, channel by channel of the delta, the formatted
text trimmed in the sense of the specification. -/
theorem entries_trimmed (D : List Channel) :
    List.Forall₂ (fun line c =>
        isTrimOf line ("https://twitch.tv/" ++ c.User ++ " is streaming: " ++ c.Title))
      (D.map entry) D := by
  induction D with
  | nil => exact List.Forall₂.nil
  | cons c rest ih => exact List.Forall₂.cons (TrimSpace_isTrimOf _) ih

/-! ## The claims -/

/-- C1 (the code departs from the claim): a pass in which `getChannels` returns
an error does not keep the tracked set. With `activeChannels` holding `a` and a
search call that fails at transport level, `getChannels` returns the error
`failed to search for channels`, the loop body goes on with the `nil` slice,
and the pruning loop deletes `a`: the map ends empty. Nothing is sent. -/
theorem C1_fetch_failure_empties_tracked_set (other : FmtRest) (lower : Char → Char)
    (http : Http) :
    (getChannels other lower (searchFails "dial tcp: i/o timeout")
        { Query := "q", GameId := "", TitleContains := "" }).2
      = some "failed to search for channels"
    ∧ (loopBody other lower (searchFails "dial tcp: i/o timeout") http "q" "" "" "url" 1800
        [("a", true)]).activeChannels = []
    ∧ (loopBody other lower (searchFails "dial tcp: i/o timeout") http "q" "" "" "url" 1800
        [("a", true)]).activeChannels ≠ [("a", true)]
    ∧ sentMessages (loopBody other lower (searchFails "dial tcp: i/o timeout") http "q" ""
        "" "url" 1800 [("a", true)]).events = [] := by
  have hg : getChannels other lower (searchFails "dial tcp: i/o timeout")
      { Query := "q", GameId := "", TitleContains := "" }
      = ([], some "failed to search for channels") := by
    simp only [getChannels, searchFails]
    rw [Errorf_plain other _ (by decide)]
  have ha : (loopBody other lower (searchFails "dial tcp: i/o timeout") http "q" "" "" "url"
      1800 [("a", true)]).activeChannels = [] := by
    rw [map_eq_nil_iff_has]
    intro id
    rw [Bool.eq_false_iff]
    intro h
    rw [loopBody_has, hg] at h
    simp at h
  refine ⟨by rw [hg], ha, by rw [ha]; decide, ?_⟩
  rw [loopBody_sent, loopBody_messages, hg]
  simp [delta, firstById, Join]

/-- C2: when the fetch succeeds with a snapshot `S` whose identifiers are
pairwise distinct, the lines of the pass are the lines of the channels of `S`
whose `Id` is not in the previous set `P`, in the order of `S`, and they are
what is sent (joined), if there is any. -/
theorem C2_delta_of_distinct_snapshot (other : FmtRest) (lower : Char → Char)
    (client : Client) (http : Http) (q g t url : String) (timeout : Nat) (P : GoMap)
    (S : List Channel)
    (hfetch : getChannels other lower client { Query := q, GameId := g, TitleContains := t }
      = (S, none))
    (hdistinct : (S.map Channel.Id).Nodup) :
    (loopBody other lower client http q g t url timeout P).messages
      = (S.filter (fun c => !P.has c.Id)).map entry
    ∧ sentMessages (loopBody other lower client http q g t url timeout P).events
      = if S.filter (fun c => !P.has c.Id) = [] then []
        else [Join ((S.filter (fun c => !P.has c.Id)).map entry) "\n"] := by
  have hd : delta P S = S.filter (fun c => !P.has c.Id) := by
    unfold delta
    exact firstById_of_nodup _
      (hdistinct.sublist ((List.filter_sublist S).map Channel.Id))
  have hm : (loopBody other lower client http q g t url timeout P).messages
      = (S.filter (fun c => !P.has c.Id)).map entry := by
    rw [loopBody_messages, hfetch, hd]
  refine ⟨hm, ?_⟩
  rw [loopBody_sent, hm]
  by_cases hD : S.filter (fun c => !P.has c.Id) = []
  · rw [if_pos hD, if_pos ((Join_entries_eq_empty _).mpr hD)]
  · rw [if_neg hD, if_neg (fun h => hD ((Join_entries_eq_empty _).mp h))]

theorem C2_delta_of_distinct_snapshot_witness :
    getChannels sampleFmt Char.toLower
        (searchOk [⟨"a", "foo", "Playing X", "g1"⟩, ⟨"b", "bar", "Racing", "g2"⟩])
        { Query := "q", GameId := "", TitleContains := "" }
      = ([⟨"a", "foo", "Playing X"⟩, ⟨"b", "bar", "Racing"⟩], none)
    ∧ (loopBody sampleFmt Char.toLower
        (searchOk [⟨"a", "foo", "Playing X", "g1"⟩, ⟨"b", "bar", "Racing", "g2"⟩])
        httpOk "q" "" "" "url" 1800 [("b", true)]).messages
      = ["https://twitch.tv/foo is streaming: Playing X"] :=
  ⟨by decide,
    (C2_delta_of_distinct_snapshot sampleFmt Char.toLower
      (searchOk [⟨"a", "foo", "Playing X", "g1"⟩, ⟨"b", "bar", "Racing", "g2"⟩])
      httpOk "q" "" "" "url" 1800 [("b", true)]
      [⟨"a", "foo", "Playing X"⟩, ⟨"b", "bar", "Racing"⟩] (by decide) (by decide)).1.trans
      (by decide)⟩

/-- C3: when the fetch succeeds with a snapshot `S`, the tracked set at the end
of the pass holds exactly the identifiers of `S`, whatever the previous set
`P` was; it is empty exactly when `S` is. -/
theorem C3_full_replacement (other : FmtRest) (lower : Char → Char)
    (client : Client) (http : Http) (q g t url : String) (timeout : Nat) (P : GoMap)
    (S : List Channel)
    (hfetch : getChannels other lower client { Query := q, GameId := g, TitleContains := t }
      = (S, none)) :
    (∀ id, (loopBody other lower client http q g t url timeout P).activeChannels.has id = true
      ↔ id ∈ S.map Channel.Id)
    ∧ ((loopBody other lower client http q g t url timeout P).activeChannels = [] ↔ S = []) := by
  have h1 : ∀ id,
      (loopBody other lower client http q g t url timeout P).activeChannels.has id = true
        ↔ id ∈ S.map Channel.Id := by
    intro id
    rw [loopBody_has, hfetch]
  refine ⟨h1, ?_⟩
  rw [map_eq_nil_iff_has]
  constructor
  · intro h
    cases S with
    | nil => rfl
    | cons c rest =>
      have := (h1 c.Id).mpr (by simp)
      rw [h c.Id] at this
      exact absurd this (by decide)
  · rintro rfl id
    rw [Bool.eq_false_iff]
    intro h
    have := (h1 id).mp h
    simp at this

theorem C3_full_replacement_witness :
    getChannels sampleFmt Char.toLower (searchOk [⟨"a", "foo", "Playing X", "g1"⟩])
        { Query := "q", GameId := "", TitleContains := "" }
      = ([⟨"a", "foo", "Playing X"⟩], none)
    ∧ (loopBody sampleFmt Char.toLower (searchOk [⟨"a", "foo", "Playing X", "g1"⟩])
        httpOk "q" "" "" "url" 1800 [("z", true)]).activeChannels.has "z" = false :=
  ⟨by decide, by
    have h := (C3_full_replacement sampleFmt Char.toLower
      (searchOk [⟨"a", "foo", "Playing X", "g1"⟩]) httpOk "q" "" "" "url" 1800 [("z", true)]
      [⟨"a", "foo", "Playing X"⟩] (by decide)).1 "z"
    rw [Bool.eq_false_iff, Ne, h]
    decide⟩

/-- C4: two passes in a row whose fetches succeed with the same snapshot `S`:
the second pass produces no line and sends nothing, whatever the previous set
`P` of the first pass was. The two passes are the first two of `mainLoop`. -/
theorem C4_idempotence (other : FmtRest) (lower : Char → Char)
    (client1 client2 : Client) (http1 http2 : Http) (q g t url : String) (timeout : Nat)
    (P : GoMap) (S : List Channel)
    (hfetch1 : getChannels other lower client1 { Query := q, GameId := g, TitleContains := t }
      = (S, none))
    (hfetch2 : getChannels other lower client2 { Query := q, GameId := g, TitleContains := t }
      = (S, none)) :
    (loopBody other lower client2 http2 q g t url timeout
        (loopBody other lower client1 http1 q g t url timeout P).activeChannels).messages = []
    ∧ sentMessages (loopBody other lower client2 http2 q g t url timeout
        (loopBody other lower client1 http1 q g t url timeout P).activeChannels).events = []
    ∧ (mainLoop other lower q g t url timeout [(client1, http1), (client2, http2)] P []).2
      = (loopBody other lower client1 http1 q g t url timeout P).events
        ++ (loopBody other lower client2 http2 q g t url timeout
          (loopBody other lower client1 http1 q g t url timeout P).activeChannels).events := by
  have hD : delta (loopBody other lower client1 http1 q g t url timeout P).activeChannels S
      = [] := by
    rw [delta_eq_nil]
    intro c hc
    rw [loopBody_has, hfetch1]
    exact List.mem_map_of_mem Channel.Id hc
  refine ⟨?_, ?_, ?_⟩
  · rw [loopBody_messages, hfetch2, hD]
    rfl
  · rw [loopBody_sent_delta other lower client2 http2 q g t url timeout _ S none hfetch2,
      if_pos hD]
  · simp [mainLoop]

theorem C4_idempotence_witness :
    getChannels sampleFmt Char.toLower (searchOk [⟨"a", "foo", "Playing X", "g1"⟩])
        { Query := "q", GameId := "", TitleContains := "" }
      = ([⟨"a", "foo", "Playing X"⟩], none)
    ∧ sentMessages (loopBody sampleFmt Char.toLower
        (searchOk [⟨"a", "foo", "Playing X", "g1"⟩]) httpOk "q" "" "" "url" 1800
        (loopBody sampleFmt Char.toLower (searchOk [⟨"a", "foo", "Playing X", "g1"⟩]) httpOk
          "q" "" "" "url" 1800 []).activeChannels).events = [] :=
  ⟨by decide,
    (C4_idempotence sampleFmt Char.toLower (searchOk [⟨"a", "foo", "Playing X", "g1"⟩])
      (searchOk [⟨"a", "foo", "Playing X", "g1"⟩]) httpOk httpOk "q" "" "" "url" 1800 []
      [⟨"a", "foo", "Playing X"⟩] (by decide) (by decide)).2.1⟩

/-- C5: the tracked set at the end of a pass does not depend on what
`sendToDiscord` returns: two passes that differ only in the HTTP stack end with
the same map, which holds exactly the identifiers of the snapshot `S`, and each
of them ends with the call of `time.Sleep`, after which `mainLoop` goes on with
that map. -/
theorem C5_no_rollback_on_delivery_failure (other : FmtRest) (lower : Char → Char)
    (client : Client) (httpA httpB : Http) (q g t url : String) (timeout : Nat) (P : GoMap)
    (S : List Channel) (rest : List (Client × Http)) (ev : List Event)
    (hfetch : getChannels other lower client { Query := q, GameId := g, TitleContains := t }
      = (S, none)) :
    (loopBody other lower client httpA q g t url timeout P).activeChannels
      = (loopBody other lower client httpB q g t url timeout P).activeChannels
    ∧ (∀ id, (loopBody other lower client httpA q g t url timeout P).activeChannels.has id = true
      ↔ id ∈ S.map Channel.Id)
    ∧ (loopBody other lower client httpA q g t url timeout P).events.getLast?
      = some (Event.sleep timeout)
    ∧ (loopBody other lower client httpB q g t url timeout P).events.getLast?
      = some (Event.sleep timeout)
    ∧ mainLoop other lower q g t url timeout ((client, httpA) :: rest) P ev
      = mainLoop other lower q g t url timeout rest
          (loopBody other lower client httpA q g t url timeout P).activeChannels
          (ev ++ (loopBody other lower client httpA q g t url timeout P).events) := by
  refine ⟨rfl, ?_, loopBody_last _ _ _ _ _ _ _ _ _ _, loopBody_last _ _ _ _ _ _ _ _ _ _, rfl⟩
  intro id
  rw [loopBody_has, hfetch]

theorem C5_no_rollback_on_delivery_failure_witness :
    getChannels sampleFmt Char.toLower (searchOk [⟨"a", "foo", "Playing X", "g1"⟩])
        { Query := "q", GameId := "", TitleContains := "" }
      = ([⟨"a", "foo", "Playing X"⟩], none)
    ∧ sendToDiscord sampleFmt httpDown "https://twitch.tv/foo is streaming: Playing X" "url"
      = some "failed to do request. connection refused"
    ∧ sendToDiscord sampleFmt httpOk "https://twitch.tv/foo is streaming: Playing X" "url"
      = none
    ∧ (loopBody sampleFmt Char.toLower (searchOk [⟨"a", "foo", "Playing X", "g1"⟩]) httpDown
        "q" "" "" "url" 1800 []).activeChannels
      = (loopBody sampleFmt Char.toLower (searchOk [⟨"a", "foo", "Playing X", "g1"⟩]) httpOk
        "q" "" "" "url" 1800 []).activeChannels :=
  ⟨by decide, by decide, by decide,
    (C5_no_rollback_on_delivery_failure sampleFmt Char.toLower
      (searchOk [⟨"a", "foo", "Playing X", "g1"⟩]) httpDown httpOk "q" "" "" "url" 1800 []
      [⟨"a", "foo", "Playing X"⟩] [] [] (by decide)).1⟩

/-- C6: when the fetch succeeds with a snapshot `S`, the joined message is the
empty string exactly when every channel of `S` has its `Id` in the previous set
`P`, whatever the user handles and titles are; `sendToDiscord` is called once,
with the joined message, when some channel is newly live, is not called
otherwise, and is never called with the empty string. -/
theorem C6_deliver_iff_delta_nonempty (other : FmtRest) (lower : Char → Char)
    (client : Client) (http : Http) (q g t url : String) (timeout : Nat) (P : GoMap)
    (S : List Channel)
    (hfetch : getChannels other lower client { Query := q, GameId := g, TitleContains := t }
      = (S, none)) :
    (Join (loopBody other lower client http q g t url timeout P).messages "\n" = ""
      ↔ ∀ c ∈ S, P.has c.Id = true)
    ∧ sentMessages (loopBody other lower client http q g t url timeout P).events
      = (if ∀ c ∈ S, P.has c.Id = true then []
        else [Join (loopBody other lower client http q g t url timeout P).messages "\n"])
    ∧ "" ∉ sentMessages (loopBody other lower client http q g t url timeout P).events := by
  have h1 : Join (loopBody other lower client http q g t url timeout P).messages "\n" = ""
      ↔ ∀ c ∈ S, P.has c.Id = true := by
    rw [loopBody_messages, hfetch, Join_entries_eq_empty, delta_eq_nil]
  have h2 : sentMessages (loopBody other lower client http q g t url timeout P).events
      = (if ∀ c ∈ S, P.has c.Id = true then []
        else [Join (loopBody other lower client http q g t url timeout P).messages "\n"]) := by
    rw [loopBody_sent]
    by_cases hall : ∀ c ∈ S, P.has c.Id = true
    · rw [if_pos hall, if_pos (h1.mpr hall)]
    · rw [if_neg hall, if_neg (fun h => hall (h1.mp h))]
  refine ⟨h1, h2, ?_⟩
  rw [h2]
  by_cases hall : ∀ c ∈ S, P.has c.Id = true
  · rw [if_pos hall]
    simp
  · rw [if_neg hall]
    intro hmem
    rw [List.mem_singleton] at hmem
    exact hall (h1.mp hmem.symm)

theorem C6_deliver_iff_delta_nonempty_witness :
    getChannels sampleFmt Char.toLower (searchOk [⟨"a", "", "  ", "g1"⟩])
        { Query := "q", GameId := "", TitleContains := "" }
      = ([⟨"a", "", "  "⟩], none)
    ∧ sentMessages (loopBody sampleFmt Char.toLower (searchOk [⟨"a", "", "  ", "g1"⟩]) httpOk
        "q" "" "" "url" 1800 []).events = ["https://twitch.tv/ is streaming:"] :=
  ⟨by decide,
    (C6_deliver_iff_delta_nonempty sampleFmt Char.toLower (searchOk [⟨"a", "", "  ", "g1"⟩])
      httpOk "q" "" "" "url" 1800 [] [⟨"a", "", "  "⟩] (by decide)).2.1.trans (by decide)⟩

/-- C7: when the fetch succeeds with a snapshot `S`, the lines of the pass
correspond one to one, in the order of `S`, to the newly live channels (the
delta of `S` against the previous set `P`), and the line of a channel is the
text `https://twitch.tv/<User> is streaming: <Title>` with the white space at
both ends trimmed; the message sent is these lines with one newline between
each two neighbours; it is the empty string exactly for an empty delta, and
then nothing is sent. -/
theorem C7_message_format (other : FmtRest) (lower : Char → Char)
    (client : Client) (http : Http) (q g t url : String) (timeout : Nat) (P : GoMap)
    (S : List Channel)
    (hfetch : getChannels other lower client { Query := q, GameId := g, TitleContains := t }
      = (S, none)) :
    List.Forall₂ (fun line c =>
        isTrimOf line ("https://twitch.tv/" ++ c.User ++ " is streaming: " ++ c.Title))
      (loopBody other lower client http q g t url timeout P).messages (delta P S)
    ∧ ("\n".intercalate (loopBody other lower client http q g t url timeout P).messages = ""
      ↔ delta P S = [])
    ∧ sentMessages (loopBody other lower client http q g t url timeout P).events
      = (if delta P S = [] then []
        else ["\n".intercalate (loopBody other lower client http q g t url timeout P).messages])
    := by
  have hm : (loopBody other lower client http q g t url timeout P).messages
      = (delta P S).map entry := by
    rw [loopBody_messages, hfetch]
  refine ⟨?_, ?_, ?_⟩
  · rw [hm]
    exact entries_trimmed (delta P S)
  · rw [← Join_eq_intercalate, hm]
    exact Join_entries_eq_empty (delta P S)
  · rw [← Join_eq_intercalate, hm]
    exact loopBody_sent_delta other lower client http q g t url timeout P S none hfetch

theorem C7_message_format_witness :
    getChannels sampleFmt Char.toLower
        (searchOk [⟨"a", "foo", "Playing X", "g1"⟩, ⟨"c", "old", "Still on", "g1"⟩,
          ⟨"b", "bar", "\u00a0Racing \t\u00a0\u3000\n", "g2"⟩])
        { Query := "q", GameId := "", TitleContains := "" }
      = ([⟨"a", "foo", "Playing X"⟩, ⟨"c", "old", "Still on"⟩,
          ⟨"b", "bar", "\u00a0Racing \t\u00a0\u3000\n"⟩], none)
    ∧ (loopBody sampleFmt Char.toLower
        (searchOk [⟨"a", "foo", "Playing X", "g1"⟩, ⟨"c", "old", "Still on", "g1"⟩,
          ⟨"b", "bar", "\u00a0Racing \t\u00a0\u3000\n", "g2"⟩])
        httpOk "q" "" "" "url" 1800 [("c", true)]).events
      = [Event.log "searching for channels",
          Event.send
            "https://twitch.tv/foo is streaming: Playing X\nhttps://twitch.tv/bar is streaming: \u00a0Racing"
            "url",
          Event.logSleeping 1800, Event.sleep 1800]
    ∧ sentMessages (loopBody sampleFmt Char.toLower
        (searchOk [⟨"a", "foo", "Playing X", "g1"⟩, ⟨"c", "old", "Still on", "g1"⟩,
          ⟨"b", "bar", "\u00a0Racing \t\u00a0\u3000\n", "g2"⟩])
        httpOk "q" "" "" "url" 1800 [("c", true)]).events
      = ["https://twitch.tv/foo is streaming: Playing X\nhttps://twitch.tv/bar is streaming: \u00a0Racing"]
    ∧ (loopBody sampleFmt Char.toLower (searchOk [⟨"a", "foo", "Playing X", "g1"⟩])
        httpOk "q" "" "" "url" 1800 []).events
      = [Event.log "searching for channels",
          Event.send "https://twitch.tv/foo is streaming: Playing X" "url",
          Event.logSleeping 1800, Event.sleep 1800] :=
  ⟨by decide, by decide,
    (C7_message_format sampleFmt Char.toLower
      (searchOk [⟨"a", "foo", "Playing X", "g1"⟩, ⟨"c", "old", "Still on", "g1"⟩,
        ⟨"b", "bar", "\u00a0Racing \t\u00a0\u3000\n", "g2"⟩])
      httpOk "q" "" "" "url" 1800 [("c", true)]
      [⟨"a", "foo", "Playing X"⟩, ⟨"c", "old", "Still on"⟩,
        ⟨"b", "bar", "\u00a0Racing \t\u00a0\u3000\n"⟩] (by decide)).2.2.trans (by decide),
    by decide⟩

/-- C9 (the code departs from the claim): when the search call fails at
transport level with the error `dial tcp: i/o timeout`, `getChannels` returns
no channels and the error `failed to search for channels`, whose message does
not contain the text of the transport error. -/
theorem C9_transport_error_text_dropped (other : FmtRest) (lower : Char → Char)
    (options : SearchOptions) :
    getChannels other lower (searchFails "dial tcp: i/o timeout") options
      = ([], some "failed to search for channels")
    ∧ Contains "failed to search for channels" "dial tcp: i/o timeout" = false := by
  constructor
  · simp only [getChannels, searchFails]
    rw [Errorf_plain other _ (by decide)]
  · decide

/-- C10: when the fetch succeeds with a snapshot `S`, which may hold several
records with the same `Id`, the lines of the pass are the entries of a
sub-sequence `D` of `S` in which an `Id` of the previous set `P` has no record
and any other `Id` has exactly the first record of `S` with that `Id`, if `S`
has one. -/
theorem C10_first_record_per_id (other : FmtRest) (lower : Char → Char)
    (client : Client) (http : Http) (q g t url : String) (timeout : Nat) (P : GoMap)
    (S : List Channel)
    (hfetch : getChannels other lower client { Query := q, GameId := g, TitleContains := t }
      = (S, none)) :
    ∃ D : List Channel, D.Sublist S
      ∧ (loopBody other lower client http q g t url timeout P).messages = D.map entry
      ∧ ∀ id, D.filter (fun c => c.Id == id)
        = if P.has id = true then [] else (S.find? (fun c => c.Id == id)).toList := by
  refine ⟨delta P S, ?_, ?_, ?_⟩
  · exact (firstById_sublist _).trans (List.filter_sublist S)
  · rw [loopBody_messages, hfetch]
  · intro id
    unfold delta
    rw [firstById_filter_id]
    by_cases h : P.has id = true
    · rw [if_pos h, find_filter_present P S id h]
      rfl
    · rw [if_neg h, find_filter_absent P S id (by simpa using h)]

theorem C10_first_record_per_id_witness :
    getChannels sampleFmt Char.toLower
        (searchOk [⟨"a", "foo", "Playing X", "g1"⟩, ⟨"a", "foo2", "Other", "g1"⟩])
        { Query := "q", GameId := "", TitleContains := "" }
      = ([⟨"a", "foo", "Playing X"⟩, ⟨"a", "foo2", "Other"⟩], none)
    ∧ ∃ D : List Channel, D.Sublist [⟨"a", "foo", "Playing X"⟩, ⟨"a", "foo2", "Other"⟩]
      ∧ (loopBody sampleFmt Char.toLower
          (searchOk [⟨"a", "foo", "Playing X", "g1"⟩, ⟨"a", "foo2", "Other", "g1"⟩]) httpOk
          "q" "" "" "url" 1800 []).messages = D.map entry
      ∧ ∀ id, D.filter (fun c => c.Id == id)
        = if GoMap.has [] id = true then []
          else (List.find? (fun c => c.Id == id)
            [(⟨"a", "foo", "Playing X"⟩ : Channel), ⟨"a", "foo2", "Other"⟩]).toList :=
  ⟨by decide,
    C10_first_record_per_id sampleFmt Char.toLower
      (searchOk [⟨"a", "foo", "Playing X", "g1"⟩, ⟨"a", "foo2", "Other", "g1"⟩]) httpOk
      "q" "" "" "url" 1800 [] [⟨"a", "foo", "Playing X"⟩, ⟨"a", "foo2", "Other"⟩] (by decide)⟩

end TwitchWatcher
